import Mathlib

/-!
Shallow embedding of the `speedracer` crate (src/lib.rs): a `RaceTrack`
races a set of named asynchronous computations against a shared timeout
and records a ranked `RaceResult` per racer in completion order.

Modelling choices:
* `Duration` is a `Nat` of nanoseconds (Rust `std::time::Duration`).
* A racer's future (`Pin<Box<dyn Future<Output = Result<T, Report>>>>`)
  is modelled by a `Computation`: the wall-clock time at which it would
  complete, and the `Result` it then yields.  `eyre::Report` is modelled
  by its rendered message `String`.
* `tokio::time::timeout` over such a computation is `timeoutAwait`:
  `some` of the computation's result when it completes within the
  timeout, `none` (the `Elapsed` error) otherwise.
* The `BTreeMap<usize, RaceResult<T>>` ranking store is an association
  list kept sorted by key; `btreeInsert` is ordered insertion with
  replacement, and iteration (`values()`) is `map Prod.snd`.
* The nondeterminism of `FuturesUnordered` (tasks are yielded in
  completion order, each spawned task exactly once) is made explicit:
  `RaceTrack.run` takes the completion order as a list argument, and
  every achievable schedule satisfies `order.Perm tr.racers`.
-/

namespace Speedracer

deriving instance DecidableEq for Except

/-- Rust `Duration::from_secs`, in nanoseconds. -/
def durationFromSecs (s : Nat) : Nat := s * 1000000000

/-- Model of a racer's deferred asynchronous computation: the elapsed
time at which it completes and the `Result<T, Report>` it yields. -/
structure Computation (T : Type) where
  duration : Nat
  result : Except String T
  deriving DecidableEq

/-- A wrapper around a `Future` (struct `Racer` in src/lib.rs). -/
structure Racer (T : Type) where
  name : String
  fut : Computation T
  deriving DecidableEq

/-- The rank and disqualification status of an executed Racer
(struct `RaceResult` in src/lib.rs). -/
structure RaceResult (T : Type) where
  name : String
  duration : Nat
  disqualified : Bool
  error : Option String
  value : Option T
  deriving DecidableEq

/-- Race a set of `Future`s and rank them (struct `RaceTrack` in
src/lib.rs).  `rankings` is the `BTreeMap<usize, RaceResult<T>>` as a
key-sorted association list. -/
structure RaceTrack (T : Type) where
  timeout : Nat
  racers : List (Racer T)
  rankings : List (Nat × RaceResult T)
  deriving DecidableEq

/-- The `Default` impl for `RaceTrack`: 5 second timeout, empty
rankings, no racers. -/
def RaceTrack.default {T : Type} : RaceTrack T :=
  { timeout := durationFromSecs 5
    rankings := []
    racers := [] }

/-- Create a new `RaceTrack` with specified timeout
(`RaceTrack::disqualify_after`): `Self { timeout, ..Default::default() }`. -/
def RaceTrack.disqualify_after {T : Type} (timeout : Nat) : RaceTrack T :=
  { RaceTrack.default with timeout := timeout }

/-- Add a `Future` to the `RaceTrack` (`RaceTrack::add_racer`): pushes a
new `Racer` onto the pending list. -/
def RaceTrack.add_racer {T : Type} (tr : RaceTrack T) (name : String)
    (fut : Computation T) : RaceTrack T :=
  { tr with racers := tr.racers ++ [{ name := name, fut := fut }] }

/-- `tokio::time::timeout(timeout, fut).await`: `Ok` (here `some`) with
the future's own result when it completes within the timeout, `Err`
(`Elapsed`, here `none`) when the deadline elapses first. -/
def timeoutAwait {T : Type} (timeout : Nat) (c : Computation T) :
    Option (Except String T) :=
  if c.duration ≤ timeout then some c.result else none

/-- The `match result { Ok(v) => (Some(v), None), Err(e) => (None, Some(e)) }`
split in the spawned task body. -/
def splitResult {T : Type} (result : Except String T) : Option T × Option String :=
  match result with
  | Except.ok v => (some v, none)
  | Except.error e => (none, some e)

/-- The body of the task spawned for one racer in `RaceTrack::run`:
await the racer's future under the timeout, measure the elapsed wall
time, set `disqualified` iff the timeout fired, substitute the
synthesized `"Racer timed out"` error on timeout, and split the result
into `value`/`error`. -/
def raceOne {T : Type} (timeout : Nat) (racer : Racer T) : RaceResult T :=
  let res := timeoutAwait timeout racer.fut
  let vE := splitResult (res.getD (Except.error "Racer timed out"))
  { name := racer.name
    duration := min racer.fut.duration timeout
    disqualified := res.isNone
    error := vE.2
    value := vE.1 }

/-- `BTreeMap::insert` on the key-sorted association list: insert
keeping keys ascending, replacing an equal key. -/
def btreeInsert {T : Type} (k : Nat) (v : RaceResult T) :
    List (Nat × RaceResult T) → List (Nat × RaceResult T)
  | [] => [(k, v)]
  | q :: rest =>
    if k < q.1 then (k, v) :: q :: rest
    else if k = q.1 then (k, v) :: rest
    else q :: btreeInsert k v rest

/-- The collection loop of `RaceTrack::run`: as each task completes,
insert its `RaceResult` at the next integer rank `i`. -/
def insertResults {T : Type} (timeout : Nat) :
    Nat → List (Racer T) → List (Nat × RaceResult T) → List (Nat × RaceResult T)
  | _, [], m => m
  | i, r :: rs, m => insertResults timeout (i + 1) rs (btreeInsert i (raceOne timeout r) m)

/-- `RaceTrack::run`: take the pending racers out of the registry
(`mem::take`), clear the previous rankings, race every pending racer
concurrently, and insert each result at the next rank as it completes.
`order` is the completion order in which `FuturesUnordered` yields the
spawned tasks; every achievable schedule has `order.Perm tr.racers`. -/
def RaceTrack.run {T : Type} (tr : RaceTrack T) (order : List (Racer T)) :
    RaceTrack T :=
  { timeout := tr.timeout
    racers := []
    rankings := insertResults tr.timeout 0 order [] }

/-- `RaceTrack::rankings`: the values of the ranking store in ascending
key order, cloned. -/
def RaceTrack.rankingsList {T : Type} (tr : RaceTrack T) : List (RaceResult T) :=
  tr.rankings.map Prod.snd

/-- `RaceTrack::rankings` as a state-passing call: the method takes
`&self`, so alongside the returned clone the track state is returned
unchanged. -/
def RaceTrack.rankingsCall {T : Type} (tr : RaceTrack T) :
    List (RaceResult T) × RaceTrack T :=
  (tr.rankings.map Prod.snd, tr)

theorem btreeInsert_eq_append {T : Type} (k : Nat) (v : RaceResult T)
    (m : List (Nat × RaceResult T)) (h : ∀ p ∈ m, p.1 < k) :
    btreeInsert k v m = m ++ [(k, v)] := by
  induction m with
  | nil => rfl
  | cons q rest ih =>
    have hq : q.1 < k := h q (List.mem_cons_self q rest)
    have h1 : ¬ k < q.1 := Nat.not_lt.mpr (Nat.le_of_lt hq)
    have h2 : ¬ k = q.1 := fun he => absurd (he ▸ hq) (Nat.lt_irrefl k)
    simp only [btreeInsert, if_neg h1, if_neg h2, List.cons_append]
    exact congrArg (q :: ·) (ih fun p hp => h p (List.mem_cons_of_mem q hp))

theorem insertResults_eq {T : Type} (timeout : Nat) (rs : List (Racer T)) :
    ∀ (i : Nat) (m : List (Nat × RaceResult T)), (∀ p ∈ m, p.1 < i) →
    insertResults timeout i rs m = m ++ List.enumFrom i (rs.map (raceOne timeout)) := by
  induction rs with
  | nil => intro i m _; simp [insertResults]
  | cons r rs ih =>
    intro i m hm
    have hstep : btreeInsert i (raceOne timeout r) m = m ++ [(i, raceOne timeout r)] :=
      btreeInsert_eq_append i (raceOne timeout r) m hm
    have hm' : ∀ p ∈ m ++ [(i, raceOne timeout r)], p.1 < i + 1 := by
      intro p hp
      rcases List.mem_append.mp hp with h | h
      · exact Nat.lt_succ_of_lt (hm p h)
      · simp only [List.mem_singleton] at h
        subst h
        exact Nat.lt_succ_self i
    simp only [insertResults, hstep, ih (i + 1) _ hm', List.map_cons, List.enumFrom,
      List.append_assoc, List.singleton_append]

theorem run_rankings_eq {T : Type} (tr : RaceTrack T) (order : List (Racer T)) :
    (RaceTrack.run tr order).rankings = List.enumFrom 0 (order.map (raceOne tr.timeout)) := by
  simpa using insertResults_eq tr.timeout order 0 [] (by intro p hp; cases hp)

theorem map_snd_enumFrom {α : Type} (i : Nat) (l : List α) :
    (List.enumFrom i l).map Prod.snd = l := by
  induction l generalizing i with
  | nil => rfl
  | cons x xs ih => simp [List.enumFrom, ih]

theorem map_fst_enumFrom {α : Type} (i : Nat) (l : List α) :
    (List.enumFrom i l).map Prod.fst = List.range' i l.length := by
  induction l generalizing i with
  | nil => rfl
  | cons x xs ih => simp [List.enumFrom, List.range', ih]

theorem rankingsList_run {T : Type} (tr : RaceTrack T) (order : List (Racer T)) :
    (RaceTrack.run tr order).rankingsList = order.map (raceOne tr.timeout) := by
  simp [RaceTrack.rankingsList, run_rankings_eq, map_snd_enumFrom]

theorem raceOne_exclusive {T : Type} (t : Nat) (r : Racer T) :
    (raceOne t r).value.isSome = (raceOne t r).error.isNone := by
  unfold raceOne timeoutAwait splitResult
  by_cases h : r.fut.duration ≤ t
  · simp only [if_pos h, Option.getD_some]
    cases r.fut.result <;> simp
  · simp [if_neg h]

theorem raceOne_disqualified_iff {T : Type} (t : Nat) (r : Racer T) :
    (raceOne t r).disqualified = true ↔ t < r.fut.duration := by
  unfold raceOne timeoutAwait
  by_cases h : r.fut.duration ≤ t
  · simp [if_pos h, Nat.not_lt.mpr h]
  · simp [if_neg h, Nat.lt_of_not_le h]

theorem raceOne_disqualified_error {T : Type} (t : Nat) (r : Racer T)
    (h : (raceOne t r).disqualified = true) :
    (raceOne t r).error = some "Racer timed out" := by
  have ht : ¬ r.fut.duration ≤ t :=
    Nat.not_le.mpr ((raceOne_disqualified_iff t r).mp h)
  unfold raceOne timeoutAwait splitResult
  simp [if_neg ht]

/-- Claim C1: after `run()` returns, `rankings()` contains exactly one
`RaceResult` per racer registered before that call: its length equals
the number of pending racers at the moment `run()` was invoked, for
every achievable completion order. -/
theorem run_cardinality {T : Type} (tr : RaceTrack T) (order : List (Racer T))
    (h : order.Perm tr.racers) :
    (RaceTrack.run tr order).rankingsList.length = tr.racers.length := by
  simp [rankingsList_run, h.length_eq]

/-- Witness for C1: a two-racer track run in reversed completion order
yields two results. -/
theorem run_cardinality_witness :
    (RaceTrack.run
      { timeout := 10,
        racers := [⟨"A", ⟨3, Except.ok 1⟩⟩, ⟨"B", ⟨20, Except.ok 2⟩⟩],
        rankings := [] }
      [⟨"B", ⟨20, Except.ok 2⟩⟩, ⟨"A", ⟨3, Except.ok 1⟩⟩]).rankingsList.length =
    ({ timeout := 10,
       racers := [⟨"A", ⟨3, Except.ok 1⟩⟩, ⟨"B", ⟨20, Except.ok 2⟩⟩],
       rankings := [] } : RaceTrack Nat).racers.length :=
  run_cardinality _ _ (by decide)

/-- Claim C2: every `RaceResult` produced by `run()` has exactly one of
`value` and `error` present: never both, never neither. -/
theorem result_value_error_exclusive {T : Type} (tr : RaceTrack T)
    (order : List (Racer T)) (res : RaceResult T)
    (h : res ∈ (RaceTrack.run tr order).rankingsList) :
    res.value.isSome = res.error.isNone := by
  rw [rankingsList_run] at h
  rcases List.mem_map.mp h with ⟨r, _, rfl⟩
  exact raceOne_exclusive tr.timeout r

/-- Witness for C2: the successful racer of a three-racer run (one
success, one internal failure, one timeout) has a value and no error. -/
theorem result_value_error_exclusive_witness :
    ({ name := "A", duration := 3, disqualified := false,
       error := none, value := some 1 } : RaceResult Nat).value.isSome =
    ({ name := "A", duration := 3, disqualified := false,
       error := none, value := some 1 } : RaceResult Nat).error.isNone :=
  result_value_error_exclusive
    { timeout := 10,
      racers := [⟨"A", ⟨3, Except.ok 1⟩⟩, ⟨"B", ⟨4, Except.error "boom"⟩⟩,
                 ⟨"C", ⟨99, Except.ok 3⟩⟩],
      rankings := [] }
    [⟨"A", ⟨3, Except.ok 1⟩⟩, ⟨"B", ⟨4, Except.error "boom"⟩⟩,
     ⟨"C", ⟨99, Except.ok 3⟩⟩]
    _ (by decide)

/-- Claim C3: in every run, a disqualified result carries the
synthesized error with the literal message "Racer timed out", and a
racer is disqualified exactly when its computation does not complete
within the configured deadline. -/
theorem disqualified_timeout_error {T : Type} (tr : RaceTrack T)
    (order : List (Racer T)) :
    (∀ res ∈ (RaceTrack.run tr order).rankingsList,
      res.disqualified = true → res.error = some "Racer timed out")
    ∧ ∀ r ∈ order,
        ((raceOne tr.timeout r).disqualified = true ↔ tr.timeout < r.fut.duration) := by
  constructor
  · intro res h hd
    rw [rankingsList_run] at h
    rcases List.mem_map.mp h with ⟨r, _, rfl⟩
    exact raceOne_disqualified_error tr.timeout r hd
  · intro r _
    exact raceOne_disqualified_iff tr.timeout r

/-- Witness for C3: a racer needing 9 time units under a deadline of 5
is ranked disqualified with the literal timeout message. -/
theorem disqualified_timeout_error_witness :
    ({ name := "S", duration := 5, disqualified := true,
       error := some "Racer timed out", value := none } : RaceResult Nat).error =
    some "Racer timed out" :=
  (disqualified_timeout_error
      { timeout := 5, racers := [⟨"S", ⟨9, Except.ok 0⟩⟩], rankings := [] }
      [⟨"S", ⟨9, Except.ok 0⟩⟩]).1
    _ (by decide) (by decide)

/-- Claim C4: after any run the rank indices keying the ranking store
are exactly 0,1,2,... with no gaps, the store is sorted ascending by
rank, and `rankings()` returns the stored results in that order. -/
theorem rank_indices_dense {T : Type} (tr : RaceTrack T) (order : List (Racer T)) :
    ((RaceTrack.run tr order).rankings.map Prod.fst = List.range order.length)
    ∧ List.Pairwise (fun p q => p.1 < q.1) (RaceTrack.run tr order).rankings
    ∧ (RaceTrack.run tr order).rankingsList =
        ((RaceTrack.run tr order).rankings.map Prod.snd) := by
  have hkeys : (RaceTrack.run tr order).rankings.map Prod.fst = List.range order.length := by
    rw [run_rankings_eq, map_fst_enumFrom, List.length_map, List.range_eq_range']
  refine ⟨hkeys, ?_, rfl⟩
  have := List.pairwise_lt_range order.length
  rw [← hkeys] at this
  exact (List.pairwise_map).mp this

/-- Claim C5: `run()` discards any prior ranking unconditionally, and a
run invoked with an empty pending racer list leaves `rankings()` empty
whatever the previous run produced. -/
theorem run_discards_prior_ranking {T : Type} (tr : RaceTrack T)
    (prior : List (Nat × RaceResult T)) (order : List (Racer T)) :
    (RaceTrack.run { tr with rankings := prior } order = RaceTrack.run tr order)
    ∧ (tr.racers = [] → order.Perm tr.racers →
        (RaceTrack.run tr order).rankingsList = []) := by
  refine ⟨rfl, fun h hperm => ?_⟩
  rw [h] at hperm
  rw [hperm.eq_nil]
  simp [rankingsList_run]

/-- Witness for C5: re-running a track whose previous run left a
ranking, with nothing pending, yields an empty ranking. -/
theorem run_discards_prior_ranking_witness :
    (RaceTrack.run
      { timeout := 7, racers := [],
        rankings := [(0, { name := "old", duration := 1, disqualified := false,
                           error := none, value := some 4 })] }
      ([] : List (Racer Nat))).rankingsList = [] :=
  (run_discards_prior_ranking
      { timeout := 7, racers := [],
        rankings := [(0, { name := "old", duration := 1, disqualified := false,
                           error := none, value := some 4 })] }
      [] []).2 rfl (by decide)

/-- Claim C6: racers are consumed exactly once per run: when `run()`
starts the pending list is emptied, so a second `run()` without newly
added racers (whose completion order is necessarily a permutation of
the now-empty pending list) re-executes nothing and ranks nothing. -/
theorem racers_consumed_on_run {T : Type} (tr : RaceTrack T)
    (order order2 : List (Racer T))
    (h : order2.Perm (RaceTrack.run tr order).racers) :
    (RaceTrack.run tr order).racers = []
    ∧ (RaceTrack.run (RaceTrack.run tr order) order2).rankingsList = [] := by
  have h2 : order2 = [] := h.eq_nil
  subst h2
  exact ⟨rfl, by simp [rankingsList_run]⟩

/-- Witness for C6: after running a one-racer track, the pending list
is empty and an immediate second run ranks nothing. -/
theorem racers_consumed_on_run_witness :
    (RaceTrack.run
      { timeout := 10, racers := [⟨"A", ⟨3, Except.ok 1⟩⟩], rankings := [] }
      [⟨"A", ⟨3, Except.ok 1⟩⟩]).racers = ([] : List (Racer Nat)) ∧
    (RaceTrack.run
      (RaceTrack.run
        { timeout := 10, racers := [⟨"A", ⟨3, Except.ok 1⟩⟩], rankings := [] }
        [⟨"A", ⟨3, Except.ok 1⟩⟩])
      []).rankingsList = [] :=
  racers_consumed_on_run _ _ [] (by decide)

/-- Claim C7: a racer whose computation fails on its own before the
deadline is ranked with `disqualified = false`, no value, and its own
error content (not the timeout text); and every racer's result is a
function of that racer alone, so the failure affects no other racer and
never aborts the run. -/
theorem racer_failure_contained {T : Type} (t : Nat) (r : Racer T) (e : String)
    (h1 : r.fut.duration ≤ t) (h2 : r.fut.result = Except.error e) :
    raceOne t r = { name := r.name, duration := r.fut.duration,
                    disqualified := false, error := some e, value := none }
    ∧ ∀ (tr : RaceTrack T) (order : List (Racer T)),
        (RaceTrack.run tr order).rankingsList = order.map (raceOne tr.timeout) := by
  refine ⟨?_, fun tr order => rankingsList_run tr order⟩
  unfold raceOne timeoutAwait splitResult
  simp [if_pos h1, h2, Nat.min_eq_left h1]

/-- Witness for C7: a racer failing with "boom" at time 2 under a
deadline of 10 is ranked failed-but-not-disqualified with its own
message. -/
theorem racer_failure_contained_witness :
    raceOne 10 (⟨"F", ⟨2, Except.error "boom"⟩⟩ : Racer Nat) =
    { name := "F", duration := 2, disqualified := false,
      error := some "boom", value := none } :=
  (racer_failure_contained 10 ⟨"F", ⟨2, Except.error "boom"⟩⟩ "boom"
    (by decide) rfl).1

/-- Claim C8: `disqualify_after(deadline)` builds a track with that
deadline, no pending racers and an empty ranking; it equals
default-construction with the deadline overridden, and the default
deadline is 5 seconds. -/
theorem disqualify_after_spec {T : Type} (d : Nat) :
    (RaceTrack.disqualify_after d : RaceTrack T) =
      { timeout := d, racers := [], rankings := [] }
    ∧ (RaceTrack.disqualify_after d : RaceTrack T) =
        { RaceTrack.default with timeout := d }
    ∧ (RaceTrack.default : RaceTrack T).timeout = durationFromSecs 5 :=
  ⟨rfl, rfl, rfl⟩

/-- Claim C9: `rankings()` is a pure read: the call leaves the track
state unchanged, and repeated calls without an intervening `run()`
return equal results. -/
theorem rankings_pure_read {T : Type} (tr : RaceTrack T) :
    (tr.rankingsCall).2 = tr
    ∧ ((tr.rankingsCall).2).rankingsCall.1 = (tr.rankingsCall).1
    ∧ (tr.rankingsCall).1 = tr.rankingsList :=
  ⟨rfl, rfl, rfl⟩

/-- Claim C10: `add_racer` only appends one racer with the given name
at the end of the pending list: the deadline, the stored rankings, and
the order of previously pending racers are all unchanged. -/
theorem add_racer_frame {T : Type} (tr : RaceTrack T) (name : String)
    (fut : Computation T) :
    (tr.add_racer name fut).timeout = tr.timeout
    ∧ (tr.add_racer name fut).rankings = tr.rankings
    ∧ (tr.add_racer name fut).racers = tr.racers ++ [{ name := name, fut := fut }] :=
  ⟨rfl, rfl, rfl⟩

end Speedracer
